import Mathlib

/-!
Verification of the replicated ticket-seat reservation service.

The definitions below are a shallow embedding of the Python sources:
`booking-node/raft/state_machine.py`, `booking-node/raft/log.py`,
`booking-node/raft/raft.py`, `booking-node/booking/seat_manager.py` and
`booking-node/booking/booking_service.py`.

Modelling conventions:
* Python dictionaries are embedded as insertion-ordered association lists
  (`alistGet` / `alistSet` reproduce `dict.get` and `dict.__setitem__`:
  an update keeps the key's position, a fresh key is appended at the end).
* `time.time()` is not available inside a pure function, so every function
  that reads the wall clock in Python takes the clock reading as an
  explicit argument (`now`, or a `clock` function indexed by apply step).
* JSON encoding/decoding of commands is elided: log entries carry the
  structured `Command` value directly.  Fields that Python obtains with
  `dict.get` (and which may be absent or `None`) are embedded as `Option`s.
* File persistence (`_save_state`, `_load_state`) and logging are I/O only
  and do not affect the in-memory state that the claims speak about.
-/

/-- `dict.get`: first binding of the key in an insertion-ordered
association list. -/
def alistGet {α β : Type} [DecidableEq α] : List (α × β) → α → Option β
  | [], _ => none
  | (k, v) :: rest, key => if k = key then some v else alistGet rest key

/-- `dict[key] = val`: replace in place if the key is present, otherwise
append the new binding at the end (Python dicts preserve insertion order). -/
def alistSet {α β : Type} [DecidableEq α] : List (α × β) → α → β → List (α × β)
  | [], key, val => [(key, val)]
  | (k, v) :: rest, key, val =>
      if k = key then (k, val) :: rest else (k, v) :: alistSet rest key val

/-- `range(a, a + n)` of Python, as an explicit list. -/
def natRangeFrom : Nat → Nat → List Nat
  | _, 0 => []
  | a, n + 1 => a :: natRangeFrom (a + 1) n

/-! ## State machine (`state_machine.py`) -/

/-- A seat reservation record (the dict stored in `show["seats"][seat_id]`). -/
structure ReservationRecord where
  reserved : Bool
  user_id : Option String
  booking_id : Option String
  reserved_at : Int
deriving DecidableEq

/-- A show's entry in `StateMachine.shows`. -/
structure ShowData where
  total_seats : Int
  price_cents : Int
  seats : List (Int × ReservationRecord)
deriving DecidableEq

/-- `StateMachine.shows`: show_id -> show data. -/
abbrev Shows := List (String × ShowData)

/-- A parsed command (`json.loads` of the log payload).  `seat_id` is the
`int(obj.get("seat_id", -1))` of `apply`; string fields that may be absent
or `None` in the JSON object are `Option`s.  `unknown` covers unknown
command types and undecodable payloads, which `apply` ignores. -/
inductive Command where
  | reserve (show_id : String) (seat_id : Int) (user_id : Option String)
      (booking_id : Option String)
  | add_show (show_id : String) (total_seats : Option Int) (price_cents : Option Int)
  | release (show_id : String) (seat_id : Int)
  | unknown
deriving DecidableEq

/-- Python truthiness of `record and record.get("reserved")`. -/
def recordReserved : Option ReservationRecord → Bool
  | some r => r.reserved
  | none => false

/-- `StateMachine._add_show`.  The guard is Python's
`if not show_id or not total_seats or price_cents is None`. -/
def StateMachine.add_show (sm : Shows) (show_id : String)
    (total_seats price_cents : Option Int) : Shows :=
  match total_seats, price_cents with
  | some t, some p =>
      if show_id = "" ∨ t = 0 then sm
      else
        match alistGet sm show_id with
        | none => alistSet sm show_id ⟨t, p, []⟩
        | some sh => alistSet sm show_id ⟨t, p, sh.seats⟩
  | _, _ => sm

/-- `StateMachine._reserve_seat`; `now` is the `int(time.time() * 1000)`
read when the new record is built. -/
def StateMachine.reserve_seat (now : Int) (sm : Shows) (show_id : String) (seat_id : Int)
    (user_id booking_id : Option String) : Shows :=
  match alistGet sm show_id with
  | none => sm
  | some sh =>
      if seat_id ≤ 0 ∨ sh.total_seats < seat_id then sm
      else if recordReserved (alistGet sh.seats seat_id) then sm
      else
        alistSet sm show_id
          { sh with seats := alistSet sh.seats seat_id ⟨true, user_id, booking_id, now⟩ }

/-- `StateMachine._release_seat`: `record.update` with reserved False,
user None, booking "" and timestamp 0. -/
def StateMachine.release_seat (sm : Shows) (show_id : String) (seat_id : Int) : Shows :=
  match alistGet sm show_id with
  | none => sm
  | some sh =>
      match alistGet sh.seats seat_id with
      | none => sm
      | some _ =>
          alistSet sm show_id
            { sh with seats := alistSet sh.seats seat_id ⟨false, none, some "", 0⟩ }

/-- `StateMachine.apply` (command dispatch; `_save_state` is file I/O only). -/
def StateMachine.apply (now : Int) (sm : Shows) : Command → Shows
  | .reserve show_id seat_id user_id booking_id =>
      StateMachine.reserve_seat now sm show_id seat_id user_id booking_id
  | .add_show show_id total_seats price_cents =>
      StateMachine.add_show sm show_id total_seats price_cents
  | .release show_id seat_id => StateMachine.release_seat sm show_id seat_id
  | .unknown => sm

/-- The record stored for a seat, if any. -/
def seatRecordOf (sm : Shows) (show_id : String) (seat_id : Int) : Option ReservationRecord :=
  match alistGet sm show_id with
  | none => none
  | some sh => alistGet sh.seats seat_id

/-- Whether a stored record marks the seat reserved. -/
def seatIsReserved (sm : Shows) (show_id : String) (seat_id : Int) : Bool :=
  recordReserved (seatRecordOf sm show_id seat_id)

/-- The precondition under which `_reserve_seat` mutates the state: the
show exists, the seat id is in range, and the seat is not already
reserved. -/
def canReserve (sm : Shows) (show_id : String) (seat_id : Int) : Bool :=
  match alistGet sm show_id with
  | none => false
  | some sh =>
      !decide (seat_id ≤ 0 ∨ sh.total_seats < seat_id) &&
        !recordReserved (alistGet sh.seats seat_id)

/-! ## Queries (`state_machine.py` and the booking layer) -/

/-- The dict returned by `StateMachine._get_seat_record`.  Keys that may be
absent from the Python dict (`booking_id`, `reserved_at`) are wrapped in an
outer `Option`: `none` means the key is absent. -/
structure SeatView where
  reserved : Bool
  user_id : Option String
  exists_ : Bool
  booking_id : Option (Option String)
  reserved_at : Option Int
deriving DecidableEq

/-- `StateMachine._get_seat_record`. -/
def StateMachine.get_seat_record (sm : Shows) (show_id : String) (seat_id : Int) : SeatView :=
  match alistGet sm show_id with
  | none => ⟨true, none, false, none, none⟩
  | some sh =>
      if seat_id ≤ 0 ∨ sh.total_seats < seat_id then ⟨true, none, false, none, none⟩
      else
        match alistGet sh.seats seat_id with
        | some r => ⟨r.reserved, r.user_id, true, some r.booking_id, some r.reserved_at⟩
        | none => ⟨false, none, true, none, none⟩

/-- The dict returned by `StateMachine.query`: the seat record merged with
`show_id` and `price_cents` (both absent when the show is unknown). -/
structure QueryView where
  show_id : Option String
  price_cents : Option Int
  seat : SeatView
deriving DecidableEq

/-- `StateMachine.query`. -/
def StateMachine.query (sm : Shows) (show_id : String) (seat_id : Int) : QueryView :=
  match alistGet sm show_id with
  | none => ⟨none, none, ⟨true, none, false, none, none⟩⟩
  | some sh => ⟨some show_id, some sh.price_cents, StateMachine.get_seat_record sm show_id seat_id⟩

/-- The `Seat` object of `seat_manager.py` (built with `dict.get` defaults). -/
structure Seat where
  seat_id : Int
  show_id : String
  reserved : Bool
  reserved_by : Option String
  reserved_at : Int
  booking_id : Option String
  price_cents : Int
deriving DecidableEq

/-- `SeatManager.query_seat` on a node whose `raft_node` is attached: reads
`RaftNode.get_seat_state` (= `StateMachine.query`) and builds a `Seat`.
`dict.get` defaults apply only when the key is absent. -/
def SeatManager.query_seat (sm : Shows) (show_id : String) (seat_id : Int) : Option Seat :=
  let v := StateMachine.query sm show_id seat_id
  if v.seat.exists_ = false then none
  else
    some
      { seat_id := seat_id
        show_id := show_id
        reserved := v.seat.reserved
        reserved_by := v.seat.user_id
        reserved_at := v.seat.reserved_at.getD 0
        booking_id := match v.seat.booking_id with
          | none => some "0"
          | some b => b
        price_cents := v.price_cents.getD 0 }

/-- `BookingServiceServicer.QuerySeat`: `(available, seat)` of the RPC
reply (`seat = none` encodes the proto `seat=None`). -/
def BookingService.QuerySeat (sm : Shows) (show_id : String) (seat_id : Int) :
    Bool × Option Seat :=
  match SeatManager.query_seat sm show_id seat_id with
  | some s => (!s.reserved, some s)
  | none => (false, none)

/-! ## Booking flow (`booking_service.py` / `seat_manager.py`)

The external collaborators (auth stub, payment stub) and the raft
`propose` round-trip are not pure functions of the node state; their
replies are supplied as an environment.  `BookSeat` additionally returns
whether control reached the `ProcessPayment` call. -/

/-- Reply of the payment service's `ProcessPayment`. -/
structure PaymentResult where
  success : Bool
  status : String
  transaction_id : String
deriving DecidableEq

/-- Outcome of `RaftNode.propose` as observed by `book_seat`: either the
command was committed and applied within the deadline, or an exception
(`PermissionError` / `TimeoutError`) was raised and caught. -/
inductive ProposeOutcome where
  | applied
  | failed
deriving DecidableEq

/-- Environment of one `BookSeat` call: replies of the auth and payment
services, the node's leadership at the time of `book_seat`, the outcome of
`propose`, and the wall clock read when the command is applied. -/
structure BookEnv where
  auth_ok : Bool
  valid : Bool
  auth_user_id : String
  payment_ok : Bool
  payment : PaymentResult
  is_leader : Bool
  propose : ProposeOutcome
  now : Int
deriving DecidableEq

/-- `SeatManager.book_seat` on a node whose `raft_node` is attached.
`Except.error ()` is the `PermissionError("Not the current Raft leader.")`
raised on a non-leader; the `.ok` payload is the returned seat (if any)
together with the node's state machine afterwards. -/
def SeatManager.book_seat (env : BookEnv) (sm : Shows) (show_id : String) (seat_id : Int)
    (user_id transaction_id : String) : Except Unit (Option Seat × Shows) :=
  if env.is_leader then
    let seat_record := StateMachine.query sm show_id seat_id
    if seat_record.seat.exists_ = false then .ok (none, sm)
    else if seat_record.seat.reserved then .ok (none, sm)
    else
      match env.propose with
      | .failed => .ok (none, sm)
      | .applied =>
          let sm' := StateMachine.apply env.now sm
            (.reserve show_id seat_id (some user_id) (some transaction_id))
          let final := StateMachine.query sm' show_id seat_id
          if final.seat.reserved && decide (final.seat.user_id = some user_id) then
            .ok (SeatManager.query_seat sm' show_id seat_id, sm')
          else .ok (none, sm')
  else .error ()

/-- Client-visible outcome of `BookingServiceServicer.BookSeat`. -/
inductive BookOutcome where
  | auth_unavailable
  | auth_failed
  | unknown_show
  | payment_unavailable
  | payment_failed
  | not_leader
  | book_failed
  | booked (seat : Seat)
deriving DecidableEq

/-- `BookingServiceServicer.BookSeat`.  The second component records
whether the `ProcessPayment` RPC was invoked.  The `card_number` travels
to the payment service, whose reply is part of `env`. -/
def BookingService.BookSeat (env : BookEnv) (sm : Shows) (show_id : String) (seat_id : Int)
    (_card_number : String) : BookOutcome × Bool :=
  if env.auth_ok = false then (.auth_unavailable, false)
  else if env.valid = false then (.auth_failed, false)
  else
    match alistGet sm show_id with
    | none => (.unknown_show, false)
    | some _ =>
        if env.payment_ok = false then (.payment_unavailable, true)
        else if env.payment.success = false ∨ env.payment.status ≠ "COMPLETED" then
          (.payment_failed, true)
        else
          match SeatManager.book_seat env sm show_id seat_id env.auth_user_id
            env.payment.transaction_id with
          | .error _ => (.not_leader, true)
          | .ok (some seat, _) => (.booked seat, true)
          | .ok (none, _) => (.book_failed, true)

/-! ## Raft log (`log.py`) -/

/-- A Raft log entry.  The opaque byte command is carried as the parsed
`Command` (JSON encoding elided). -/
structure LogEntry where
  index : Nat
  term : Nat
  command : Command
deriving DecidableEq

/-- `Log`: the `_entries` dict (index -> entry) plus `last_index`. -/
structure Log where
  entries : List (Nat × LogEntry)
  last_index : Nat
deriving DecidableEq

/-- `Log.__init__`. -/
def Log.empty : Log := ⟨[], 0⟩

/-- `Log.append`: unconditionally stores the entry under its index and
raises `last_index` to at least `entry.index`. -/
def Log.append (l : Log) (e : LogEntry) : Log :=
  { entries := alistSet l.entries e.index e, last_index := max l.last_index e.index }

/-- `Log.get`. -/
def Log.get (l : Log) (i : Nat) : Option LogEntry := alistGet l.entries i

/-- Every stored entry sits under its own index as key.  True of every log
the code builds (`append` keys an entry by `entry.index`). -/
def Log.wellKeyed (l : Log) : Bool := l.entries.all (fun p => p.2.index == p.1)

/-! ## Raft node (`raft.py`)

Only the state and operations the claims are about are embedded: the
commit check, the append-entries handler, and the apply loop.  Timers,
gRPC plumbing and the proposal futures are I/O and are elided. -/

inductive Role where
  | follower
  | candidate
  | leader
deriving DecidableEq

/-- The per-node Raft state touched by the embedded operations. -/
structure RaftNode where
  current_term : Nat
  voted_for : Option String
  log : Log
  commit_index : Nat
  last_applied : Nat
  role : Role
  leader_id : Option String
  match_index : List (String × Nat)
  majority : Nat
  state_machine : Shows
deriving DecidableEq

/-- `RaftNode._transition_to_follower` (timer resets elided). -/
def RaftNode.transition_to_follower (st : RaftNode) (new_term : Nat) : RaftNode :=
  if st.current_term < new_term then
    { st with current_term := new_term, voted_for := none, role := .follower }
  else { st with role := .follower }

/-- The `for N in range(commit_index + 1, max_log_index + 1)` loop of
`RaftNode._check_for_commit`: walk the candidate indices upward, advancing
the commit index while each index is majority-replicated and carries an
entry of the current term, and stop at the first index that is not. -/
def commitScan (log : Log) (current_term majority : Nat) (matchVals : List Nat) :
    List Nat → Nat → Nat
  | [], commit => commit
  | n :: rest, commit =>
      let replicated_count := 1 + (matchVals.filter (fun m => n ≤ m)).length
      if majority ≤ replicated_count then
        match log.get n with
        | some e =>
            if e.term = current_term then
              commitScan log current_term majority matchVals rest n
            else commit
        | none => commit
      else commit

/-- `RaftNode._check_for_commit` (the proposal-future bookkeeping in the
source is commented out and the commit index is its only mutation). -/
def RaftNode.check_for_commit (st : RaftNode) : RaftNode :=
  if st.role ≠ .leader then st
  else
    { st with
        commit_index :=
          commitScan st.log st.current_term st.majority (st.match_index.map Prod.snd)
            (natRangeFrom (st.commit_index + 1) (st.log.last_index - st.commit_index))
            st.commit_index }

/-- `AppendEntriesRequest` of the peer RPC. -/
structure AppendEntriesRequest where
  term : Nat
  leader_id : String
  prev_log_index : Nat
  prev_log_term : Nat
  entries : List LogEntry
  leader_commit : Nat
deriving DecidableEq

/-- `AppendEntriesResponse`; an omitted proto field defaults to 0. -/
structure AppendEntriesResponse where
  term : Nat
  success : Bool
  match_index : Nat
deriving DecidableEq

/-- The `for entry_req in request.entries` loop of
`RaftNode.handle_append_entries`: returns the log after the in-place
appends, the final `last_appended_index`, and whether a conflicting entry
(same index, differing term) caused the early `success=False` return. -/
def appendEntriesLoop : Log → Nat → List LogEntry → Log × Nat × Bool
  | log, last, [] => (log, last, false)
  | log, last, e :: rest =>
      match log.get e.index with
      | some ex =>
          if ex.term ≠ e.term then (log, last, true)
          else appendEntriesLoop log ex.index rest
      | none => appendEntriesLoop (log.append e) e.index rest

/-- Lines 349-354: `request.prev_log_index > 0` and the local entry there
is present with the term the request names (vacuously true at index 0). -/
def prevEntryOk (log : Log) (req : AppendEntriesRequest) : Bool :=
  if 0 < req.prev_log_index then
    match log.get req.prev_log_index with
    | none => false
    | some pe => pe.term = req.prev_log_term
  else true

/-- Lines 345-385 of `RaftNode.handle_append_entries`: the part after the
term checks (entered with the sender accepted as leader and the role
forced to follower): prev-entry consistency check, heartbeat commit
update, entry loop, and post-append commit update. -/
def RaftNode.append_entries_accept (st : RaftNode) (req : AppendEntriesRequest) :
    RaftNode × AppendEntriesResponse :=
  if prevEntryOk st.log req = false then (st, ⟨st.current_term, false, st.log.last_index⟩)
  else if req.entries = [] then
    let st3 :=
      if st.commit_index < req.leader_commit then
        { st with commit_index := min req.leader_commit st.log.last_index }
      else st
    (st3, ⟨st3.current_term, true, st3.log.last_index⟩)
  else
    match appendEntriesLoop st.log req.prev_log_index req.entries with
    | (log', last_appended, conflict) =>
        if conflict then
          let st3 := { st with log := log' }
          (st3, ⟨st3.current_term, false, st3.log.last_index⟩)
        else
          let st3 := { st with log := log' }
          let st4 :=
            if st3.commit_index < req.leader_commit then
              { st3 with commit_index := min req.leader_commit last_appended }
            else st3
          (st4, ⟨st4.current_term, true, last_appended⟩)

/-- `RaftNode.handle_append_entries` (heartbeat timestamps elided): the
term checks of lines 339-347, then the accept path. -/
def RaftNode.handle_append_entries (st : RaftNode) (req : AppendEntriesRequest) :
    RaftNode × AppendEntriesResponse :=
  if req.term < st.current_term then (st, ⟨st.current_term, false, 0⟩)
  else
    let st1 := if st.current_term < req.term then st.transition_to_follower req.term else st
    RaftNode.append_entries_accept
      { st1 with leader_id := some req.leader_id, role := .follower } req

/-- The `while self.last_applied < self.commit_index` loop of
`RaftNode._apply_committed`; `clock i` is the wall-clock reading when the
entry at index `i` is applied.  Each iteration increments `last_applied`
by one while the loop condition holds, so the loop runs exactly
`commit_index - last_applied` times; that bound is passed as structural
fuel (the loop condition is still re-checked every iteration). -/
def applyLoopAux (log : Log) (clock : Nat → Int) :
    Nat → Nat → Nat → Shows → Nat × Shows
  | 0, la, _, sm => (la, sm)
  | fuel + 1, la, commit, sm =>
      if la < commit then
        let i := la + 1
        let sm' :=
          match log.get i with
          | some e => StateMachine.apply (clock i) sm e.command
          | none => sm
        applyLoopAux log clock fuel i commit sm'
      else (la, sm)

/-- `RaftNode._apply_committed` (proposal-future resolution elided). -/
def RaftNode.apply_committed (clock : Nat → Int) (st : RaftNode) : RaftNode :=
  let r := applyLoopAux st.log clock (st.commit_index - st.last_applied)
    st.last_applied st.commit_index st.state_machine
  { st with last_applied := r.1, state_machine := r.2 }

/-! ## Spec-side definitions for the refinement comparisons -/

/-- Modelled from the spec, commit rule of §4.3: the largest N such that
(a) N is greater than the current commit index, (b) a majority of peers
counting the leader itself have match_index ≥ N, and (c) the log entry at
N has the leader's current term; the commit index itself if no such N
exists. -/
def specCommitAdvance (st : RaftNode) : Nat :=
  ((natRangeFrom (st.commit_index + 1) (st.log.last_index - st.commit_index)).filter
    (fun n =>
      decide (st.majority ≤
          1 + ((st.match_index.map Prod.snd).filter (fun m => n ≤ m)).length) &&
        match st.log.get n with
        | some e => decide (e.term = st.current_term)
        | none => false)).foldl max st.commit_index

/-- Modelled from the spec, receiver rule 4 of §4.3 (delete the entry at a
conflicting index and every entry after it): keep the strictly earlier
entries, the new last index is the one before the deletion point. -/
def specDeleteFrom (l : Log) (i : Nat) : Log :=
  { entries := l.entries.filter (fun p => p.1 < i), last_index := i - 1 }

/-- Modelled from the spec, receiver rule 4 of §4.3: for each entry of the
request, a local entry at the same index with a differing term is deleted
together with every entry after it and the request's entry is appended; an
absent entry is appended. -/
def specReceiverAppend : Log → List LogEntry → Log
  | log, [] => log
  | log, e :: rest =>
      match log.get e.index with
      | some ex =>
          if ex.term ≠ e.term then
            specReceiverAppend ((specDeleteFrom log e.index).append e) rest
          else specReceiverAppend log rest
      | none => specReceiverAppend (log.append e) rest

/-! ## Concrete fixtures used by the counterexamples -/

/-- A leader of a 3-node cluster (majority `int(3/2)+1 = 2`) in term 2,
holding an uncommitted entry from term 1 at index 1 and a current-term
entry at index 2, both fully replicated (`match_index ≥ 2` on both
peers). -/
def stC2 : RaftNode :=
  { current_term := 2
    voted_for := none
    log := (Log.empty.append ⟨1, 1, .unknown⟩).append ⟨2, 2, .unknown⟩
    commit_index := 0
    last_applied := 0
    role := .leader
    leader_id := some "n1"
    match_index := [("n2", 2), ("n3", 2)]
    majority := 2
    state_machine := [] }

/-- A follower in term 1 holding a term-1 entry at index 1. -/
def stC3 : RaftNode :=
  { current_term := 1
    voted_for := none
    log := Log.empty.append ⟨1, 1, .unknown⟩
    commit_index := 0
    last_applied := 0
    role := .follower
    leader_id := none
    match_index := []
    majority := 2
    state_machine := [] }

/-- A term-2 append-entries request whose entry at index 1 conflicts with
the term-1 entry `stC3` holds there. -/
def reqC3 : AppendEntriesRequest :=
  { term := 2
    leader_id := "n2"
    prev_log_index := 0
    prev_log_term := 0
    entries := [⟨1, 2, .unknown⟩]
    leader_commit := 0 }

/-- A freshly started follower of a 3-node cluster. -/
def initNodeC7 : RaftNode :=
  { current_term := 0
    voted_for := none
    log := Log.empty
    commit_index := 0
    last_applied := 0
    role := .follower
    leader_id := none
    match_index := []
    majority := 2
    state_machine := [] }

/-- First request of the C7/C8 trace: entries 1 and 2 of term 1, leader
commit 2. -/
def reqC7a : AppendEntriesRequest :=
  { term := 1, leader_id := "n1", prev_log_index := 0, prev_log_term := 0
    entries := [⟨1, 1, .unknown⟩, ⟨2, 1, .unknown⟩], leader_commit := 2 }

/-- Second request of the trace: a stale retransmission carrying only the
entry at index 1 but a leader commit of 3. -/
def reqC7b : AppendEntriesRequest :=
  { term := 1, leader_id := "n1", prev_log_index := 0, prev_log_term := 0
    entries := [⟨1, 1, .unknown⟩], leader_commit := 3 }

/-- The follower after accepting `reqC7a` and running the apply loop:
commit index 2, last applied 2. -/
def stC7 : RaftNode :=
  RaftNode.apply_committed (fun _ => 0) (initNodeC7.handle_append_entries reqC7a).1

/-- The same follower after also handling the stale `reqC7b`. -/
def stC7' : RaftNode := (stC7.handle_append_entries reqC7b).1

/-- State machine after adding a 10-seat show "s". -/
def smC5a : Shows := StateMachine.apply 0 [] (.add_show "s" (some 10) (some 5))

/-- ... after reserving seat 1 of "s". -/
def smC5b : Shows := StateMachine.apply 7 smC5a (.reserve "s" 1 (some "u") (some "b"))

/-- ... after a committed `release` of seat 1 of "s". -/
def smC5c : Shows := StateMachine.apply 9 smC5b (.release "s" 1)

/-- The committed command sequence of the C4 counterexample. -/
def cmdsC4 : List Command :=
  [.add_show "s" (some 1) (some 0), .reserve "s" 1 (some "u") (some "b")]

/-- Booking environment of the C6 counterexample: valid session, payment
service accepts the card, but the node is not the leader. -/
def envC6 : BookEnv :=
  { auth_ok := true
    valid := true
    auth_user_id := "u"
    payment_ok := true
    payment := ⟨true, "COMPLETED", "tx1"⟩
    is_leader := false
    propose := .applied
    now := 0 }

/-- Catalog of the C6 counterexample: show "s1" exists with price 100. -/
def smC6 : Shows := [("s1", ⟨10, 100, []⟩)]

/-- Replay of a command sequence on a fresh state machine, `clock i` being
the wall-clock reading of the replica when it applies the i-th command. -/
def replayFrom (clock : Nat → Int) : Nat → Shows → List Command → Shows
  | _, sm, [] => sm
  | i, sm, c :: rest => replayFrom clock (i + 1) (StateMachine.apply (clock i) sm c) rest

/-- Replay from the fresh (empty) state machine. -/
def replay (clock : Nat → Int) (cmds : List Command) : Shows :=
  replayFrom clock 0 [] cmds

/-! ## Timestamp erasure (determinism up to `reserved_at`) -/

/-- Erase the wall-clock timestamp of one record. -/
def eraseRecordTime (r : ReservationRecord) : ReservationRecord := { r with reserved_at := 0 }

/-- Erase the timestamps of a show's seat map. -/
def eraseShowTime (sh : ShowData) : ShowData :=
  { sh with seats := sh.seats.map (fun p => (p.1, eraseRecordTime p.2)) }

/-- Erase every `reserved_at` of a state machine state. -/
def eraseTime (sm : Shows) : Shows := sm.map (fun p => (p.1, eraseShowTime p.2))

/-- The request's entries carry consecutive indices starting right after
`prev_log_index`, as the leader's `_send_append_entries` builds them. -/
def consecutiveFrom : Nat → List LogEntry → Bool
  | _, [] => true
  | p, e :: rest => (e.index == p + 1) && consecutiveFrom (p + 1) rest

/-- The applied effect of the committed entries at indices
`last_applied + 1 .. commit_index`, folded in increasing index order. -/
def applyRange (log : Log) (clock : Nat → Int) (la ci : Nat) (sm : Shows) : Shows :=
  (natRangeFrom (la + 1) (ci - la)).foldl
    (fun s i =>
      match log.get i with
      | some e => StateMachine.apply (clock i) s e.command
      | none => s) sm

/-! ## Association-list and range lemmas -/
theorem alistGet_set_self {α β : Type} [DecidableEq α] (l : List (α × β)) (k : α) (v : β) :
    alistGet (alistSet l k v) k = some v := by
  induction l with
  | nil => simp [alistGet, alistSet]
  | cons p rest ih =>
      obtain ⟨a, b⟩ := p
      by_cases h : a = k
      · simp [alistGet, alistSet, h]
      · simp [alistGet, alistSet, h, ih]

theorem alistGet_set_ne {α β : Type} [DecidableEq α] (l : List (α × β)) (k k' : α) (v : β)
    (h : k' ≠ k) : alistGet (alistSet l k v) k' = alistGet l k' := by
  induction l with
  | nil => simp [alistGet, alistSet, Ne.symm h]
  | cons p rest ih =>
      obtain ⟨a, b⟩ := p
      by_cases ha : a = k
      · subst ha
        simp [alistGet, alistSet, Ne.symm h]
      · by_cases ha' : a = k'
        · subst ha'
          simp [alistGet, alistSet, ha]
        · simp [alistGet, alistSet, ha, ha', ih]

theorem alistGet_mem {α β : Type} [DecidableEq α] {l : List (α × β)} {k : α} {v : β}
    (h : alistGet l k = some v) : (k, v) ∈ l := by
  induction l with
  | nil => simp [alistGet] at h
  | cons p rest ih =>
      obtain ⟨a, b⟩ := p
      by_cases ha : a = k
      · subst ha
        simp [alistGet] at h
        simp [h]
      · simp [alistGet, ha] at h
        exact List.mem_cons_of_mem _ (ih h)

theorem alistSet_all {α β : Type} [DecidableEq α] (P : α × β → Bool) (l : List (α × β))
    (k : α) (v : β) (hl : l.all P = true) (hv : P (k, v) = true) :
    (alistSet l k v).all P = true := by
  induction l with
  | nil => simp [alistSet, hv]
  | cons p rest ih =>
      obtain ⟨a, b⟩ := p
      simp only [List.all_cons, Bool.and_eq_true] at hl
      by_cases ha : a = k
      · subst ha
        simp [alistSet, hv, hl.2]
      · simp [alistSet, ha, hl.1, ih hl.2]

theorem alistGet_map {α β γ : Type} [DecidableEq α] (f : β → γ) (l : List (α × β)) (k : α) :
    alistGet (l.map (fun p => (p.1, f p.2))) k = (alistGet l k).map f := by
  induction l with
  | nil => simp [alistGet]
  | cons p rest ih =>
      obtain ⟨a, b⟩ := p
      by_cases ha : a = k
      · simp [alistGet, ha]
      · simp [alistGet, ha, ih]

theorem alistSet_map {α β γ : Type} [DecidableEq α] (f : β → γ) (l : List (α × β))
    (k : α) (v : β) :
    (alistSet l k v).map (fun p => (p.1, f p.2)) =
      alistSet (l.map (fun p => (p.1, f p.2))) k (f v) := by
  induction l with
  | nil => simp [alistSet]
  | cons p rest ih =>
      obtain ⟨a, b⟩ := p
      by_cases ha : a = k
      · simp [alistSet, ha]
      · simp [alistSet, ha, ih]

theorem natRangeFrom_le {a n x : Nat} (h : x ∈ natRangeFrom a n) : a ≤ x := by
  induction n generalizing a with
  | zero => simp [natRangeFrom] at h
  | succ n ih =>
      simp only [natRangeFrom, List.mem_cons] at h
      rcases h with h | h
      · omega
      · have := ih h
        omega

theorem Log.wellKeyed_get {l : Log} {i : Nat} {e : LogEntry}
    (hwk : l.wellKeyed = true) (hget : l.get i = some e) : e.index = i := by
  have hmem := alistGet_mem hget
  have := (List.all_eq_true.1 hwk) _ hmem
  simpa using this

theorem Log.wellKeyed_append {l : Log} (e : LogEntry) (hwk : l.wellKeyed = true) :
    (l.append e).wellKeyed = true := by
  exact alistSet_all _ l.entries e.index e hwk (by simp)

/-! ## Support lemmas -/

theorem recordReserved_map_erase (r : Option ReservationRecord) :
    recordReserved (r.map eraseRecordTime) = recordReserved r := by
  cases r <;> rfl

theorem eraseTime_get (sm : Shows) (s : String) :
    alistGet (eraseTime sm) s = (alistGet sm s).map eraseShowTime :=
  alistGet_map eraseShowTime sm s

theorem eraseTime_set (sm : Shows) (s : String) (sh : ShowData) :
    eraseTime (alistSet sm s sh) = alistSet (eraseTime sm) s (eraseShowTime sh) :=
  alistSet_map eraseShowTime sm s sh

theorem eraseShowTime_total (sh : ShowData) : (eraseShowTime sh).total_seats = sh.total_seats :=
  rfl

theorem eraseShowTime_get (sh : ShowData) (i : Int) :
    alistGet (eraseShowTime sh).seats i = (alistGet sh.seats i).map eraseRecordTime :=
  alistGet_map eraseRecordTime sh.seats i

/-- Erasing the timestamps commutes with `apply`: the clock reading only
ever lands in the `reserved_at` field. -/
theorem apply_eraseTime (now : Int) (sm : Shows) (c : Command) :
    eraseTime (StateMachine.apply now sm c) = StateMachine.apply 0 (eraseTime sm) c := by
  cases c with
  | unknown => rfl
  | add_show s t p =>
      simp only [StateMachine.apply, StateMachine.add_show]
      split
      · rename_i tv pv
        by_cases hguard : s = "" ∨ tv = 0
        · rw [if_pos hguard, if_pos hguard]
        · rw [if_neg hguard, if_neg hguard, eraseTime_get]
          cases hsh : alistGet sm s with
          | none =>
              simp only [Option.map_none', eraseTime_set]
              rfl
          | some sh =>
              simp only [Option.map_some', eraseTime_set]
              rfl
      · rfl
  | reserve s i u b =>
      simp only [StateMachine.apply, StateMachine.reserve_seat]
      rw [eraseTime_get]
      cases hsh : alistGet sm s with
      | none => rfl
      | some sh =>
          simp only [Option.map_some']
          rw [eraseShowTime_total, eraseShowTime_get, recordReserved_map_erase]
          by_cases hrange : i ≤ 0 ∨ sh.total_seats < i
          · rw [if_pos hrange, if_pos hrange]
          · rw [if_neg hrange, if_neg hrange]
            cases hr : recordReserved (alistGet sh.seats i) with
            | true => rw [if_pos rfl, if_pos rfl]
            | false =>
                rw [if_neg (by simp), if_neg (by simp)]
                rw [eraseTime_set]
                congr 1
                simp only [eraseShowTime]
                rw [alistSet_map]
                rfl
  | release s i =>
      simp only [StateMachine.apply, StateMachine.release_seat]
      rw [eraseTime_get]
      cases hsh : alistGet sm s with
      | none => rfl
      | some sh =>
          simp only [Option.map_some']
          rw [eraseShowTime_get]
          cases hr : alistGet sh.seats i with
          | none => rfl
          | some r =>
              simp only [Option.map_some']
              rw [eraseTime_set]
              congr 1
              simp only [eraseShowTime]
              rw [alistSet_map]
              rfl

theorem replayFrom_eraseTime (clock : Nat → Int) (cmds : List Command) :
    ∀ (i : Nat) (sm : Shows),
      eraseTime (replayFrom clock i sm cmds) = replayFrom (fun _ => 0) i (eraseTime sm) cmds := by
  induction cmds with
  | nil => intro i sm; rfl
  | cons c rest ih =>
      intro i sm
      simp only [replayFrom]
      rw [ih, apply_eraseTime]

/-- The fuelled apply loop with exact fuel reaches the commit index and
folds the entries in increasing index order. -/
theorem applyLoopAux_spec (log : Log) (clock : Nat → Int) :
    ∀ (n la ci : Nat) (sm : Shows), ci - la = n → la ≤ ci →
      applyLoopAux log clock n la ci sm = (ci, applyRange log clock la ci sm) := by
  intro n
  induction n with
  | zero =>
      intro la ci sm h hle
      have heq : la = ci := by omega
      subst heq
      simp [applyLoopAux, applyRange, Nat.sub_self, natRangeFrom]
  | succ n ih =>
      intro la ci sm h hle
      have hlt : la < ci := by omega
      simp only [applyLoopAux, if_pos hlt]
      rw [ih (la + 1) ci _ (by omega) (by omega)]
      have h2 : ci - la = (ci - (la + 1)) + 1 := by omega
      unfold applyRange
      rw [h2]
      simp only [natRangeFrom, List.foldl]

/-- If the receiver's entry loop runs all entries without a conflict and
the entries are consecutive from `p`, the final `last_appended_index` is
`p + (number of entries)`. -/
theorem appendEntriesLoop_last (es : List LogEntry) :
    ∀ (log : Log) (p : Nat), log.wellKeyed = true → consecutiveFrom p es = true →
      (appendEntriesLoop log p es).2.2 = false →
      (appendEntriesLoop log p es).2.1 = p + es.length := by
  induction es with
  | nil =>
      intro log p _ _ _
      simp [appendEntriesLoop]
  | cons e rest ih =>
      intro log p hwk hc hnc
      simp only [consecutiveFrom, Bool.and_eq_true, beq_iff_eq] at hc
      obtain ⟨hidx, hrest⟩ := hc
      simp only [appendEntriesLoop] at hnc ⊢
      cases hget : log.get e.index with
      | some ex =>
          rw [hget] at hnc
          dsimp only at hnc ⊢
          by_cases ht : ex.term ≠ e.term
          · rw [if_pos ht] at hnc
            exact absurd hnc (by simp)
          · rw [if_neg ht] at hnc ⊢
            have hex : ex.index = e.index := Log.wellKeyed_get hwk hget
            rw [hex, hidx] at hnc ⊢
            have := ih log (p + 1) hwk hrest hnc
            simp only [List.length_cons]
            omega
      | none =>
          rw [hget] at hnc
          dsimp only at hnc ⊢
          rw [hidx] at hnc ⊢
          have := ih (log.append e) (p + 1) (Log.wellKeyed_append e hwk) hrest hnc
          simp only [List.length_cons]
          omega

/-- The commit scan returns either the old commit index or one of the
candidate indices it walked. -/
theorem commitScan_ge (log : Log) (t m : Nat) (mv : List Nat) :
    ∀ (ns : List Nat) (c : Nat),
      commitScan log t m mv ns c = c ∨ commitScan log t m mv ns c ∈ ns := by
  intro ns
  induction ns with
  | nil => intro c; left; rfl
  | cons n rest ih =>
      intro c
      simp only [commitScan]
      by_cases hm : m ≤ 1 + (mv.filter (fun x => n ≤ x)).length
      · rw [if_pos hm]
        cases hget : log.get n with
        | some e =>
            dsimp only
            by_cases ht : e.term = t
            · rw [if_pos ht]
              rcases ih n with h | h
              · right
                rw [h]
                exact List.mem_cons_self n rest
              · right
                exact List.mem_cons_of_mem n h
            · rw [if_neg ht]
              left
              rfl
        | none =>
            left
            rfl
      · rw [if_neg hm]
        left
        rfl

/-- `_check_for_commit` never lowers the commit index. -/
theorem check_for_commit_mono (st : RaftNode) :
    st.commit_index ≤ (RaftNode.check_for_commit st).commit_index := by
  unfold RaftNode.check_for_commit
  split
  · exact Nat.le_refl _
  · show st.commit_index ≤ commitScan st.log st.current_term st.majority
      (st.match_index.map Prod.snd)
      (natRangeFrom (st.commit_index + 1) (st.log.last_index - st.commit_index))
      st.commit_index
    rcases commitScan_ge st.log st.current_term st.majority (st.match_index.map Prod.snd)
      (natRangeFrom (st.commit_index + 1) (st.log.last_index - st.commit_index))
      st.commit_index with h | h
    · rw [h]
    · have := natRangeFrom_le h
      omega

/-- The accept path of the append-entries handler never lowers the commit
index, provided commit ≤ last log index and the request is shaped as the
leader's sender shapes it. -/
theorem accept_commit_mono (st : RaftNode) (req : AppendEntriesRequest)
    (hwk : st.log.wellKeyed = true)
    (hci : st.commit_index ≤ st.log.last_index)
    (hbound : req.entries = [] ∨
      (consecutiveFrom req.prev_log_index req.entries = true ∧
        req.leader_commit ≤ req.prev_log_index + req.entries.length)) :
    st.commit_index ≤ (RaftNode.append_entries_accept st req).1.commit_index := by
  simp only [RaftNode.append_entries_accept]
  by_cases hprev : prevEntryOk st.log req = false
  · rw [if_pos hprev]
  · rw [if_neg hprev]
    by_cases hemp : req.entries = []
    · rw [if_pos hemp]
      by_cases hlt : st.commit_index < req.leader_commit
      · rw [if_pos hlt]
        dsimp only
        exact le_min (by omega) hci
      · rw [if_neg hlt]
    · rw [if_neg hemp]
      by_cases hconf : (appendEntriesLoop st.log req.prev_log_index req.entries).2.2 = true
      · rw [if_pos hconf]
      · rw [if_neg hconf]
        rcases hbound with hb | ⟨hcons, hlc⟩
        · exact absurd hb hemp
        · have hlast : (appendEntriesLoop st.log req.prev_log_index req.entries).2.1 =
              req.prev_log_index + req.entries.length :=
            appendEntriesLoop_last req.entries st.log req.prev_log_index hwk hcons
              (by simpa using hconf)
          by_cases hlt : st.commit_index < req.leader_commit
          · rw [if_pos hlt]
            dsimp only
            refine le_min (by omega) ?_
            rw [hlast]
            omega
          · rw [if_neg hlt]

/-! ## The claims -/

/-- Claim C1: applying a `reserve` command is a no-op unless the show
exists, the seat id is in `[1, total_seats]`, and the seat is not already
reserved; when those conditions hold the seat's record becomes
`reserved = true` with the supplied user id, booking id and the timestamp;
and a `reserve` for an already-reserved seat (in particular a second
application of the same `reserve`) leaves the state machine unchanged. -/
theorem reserve_apply_spec (now : Int) (sm : Shows) (sid : String) (seat : Int)
    (uid bid : Option String) :
    (canReserve sm sid seat = false →
      StateMachine.apply now sm (.reserve sid seat uid bid) = sm) ∧
    (canReserve sm sid seat = true →
      seatRecordOf (StateMachine.apply now sm (.reserve sid seat uid bid)) sid seat =
        some ⟨true, uid, bid, now⟩) ∧
    (seatIsReserved sm sid seat = true →
      StateMachine.apply now sm (.reserve sid seat uid bid) = sm) := by
  simp only [StateMachine.apply, StateMachine.reserve_seat, canReserve, seatIsReserved,
    seatRecordOf]
  cases hsh : alistGet sm sid with
  | none => simp
  | some sh =>
      by_cases hrange : seat ≤ 0 ∨ sh.total_seats < seat
      · simp [hrange]
      · cases hres : recordReserved (alistGet sh.seats seat) with
        | true => simp [hrange, hres]
        | false =>
            simp [hrange, hres, alistGet_set_self]

/-- Witness for C1: on a 2-seat show with no reservations, reserving seat 1
stores the supplied record. -/
theorem reserve_apply_spec_witness :
    canReserve [("s", ⟨2, 100, []⟩)] "s" 1 = true ∧
    seatRecordOf (StateMachine.apply 5 [("s", ⟨2, 100, []⟩)]
        (.reserve "s" 1 (some "u") (some "b"))) "s" 1 =
      some ⟨true, some "u", some "b", 5⟩ :=
  ⟨by decide,
    (reserve_apply_spec 5 [("s", ⟨2, 100, []⟩)] "s" 1 (some "u") (some "b")).2.1 (by decide)⟩

/-- Claim C2: at `stC2` the spec's commit rule picks N = 2 (N exceeds the
commit index 0, both peers have match_index ≥ 2, and the entry at 2 has
the current term 2), so the claim says the commit index advances to 2,
committing the term-1 entry at index 1 indirectly; the code's
`_check_for_commit` instead leaves the commit index at 0, because its scan
breaks at index 1, whose term differs from the current term. -/
theorem check_for_commit_stalls_on_prev_term :
    specCommitAdvance stC2 = 2 ∧ (RaftNode.check_for_commit stC2).commit_index = 0 := by
  decide

/-- Claim C3: a request whose entry at index 1 (term 2) conflicts with the
follower's local entry (term 1) is answered with `success = false` and the
local log keeps the old entry, whereas the spec's receiver rule 4
(`specReceiverAppend`) deletes the conflicting suffix and appends the
request's entry. -/
theorem append_entries_conflict_rejected_not_truncated :
    ((RaftNode.handle_append_entries stC3 reqC3).2.success = false) ∧
    ((RaftNode.handle_append_entries stC3 reqC3).1.log.get 1 = some ⟨1, 1, .unknown⟩) ∧
    ((specReceiverAppend stC3.log reqC3.entries).get 1 = some ⟨1, 2, .unknown⟩) := by
  decide

/-- Claim C4 counterexample: two fresh state machines replaying the same
committed command sequence but reading different wall clocks inside apply
(as two replicas do) end in different states: the `reserved_at` fields
differ, so not all fields of every reservation record are equal. -/
theorem replay_clock_dependent :
    replay (fun _ => 1000) cmdsC4 ≠ replay (fun _ => 2000) cmdsC4 := by
  decide

/-- Claim C4 (amended): applying the same committed command sequence to
two fresh state machines yields equal show catalogs and seat maps up to
the `reserved_at` timestamps — every field except `reserved_at` (which is
read from the applying replica's wall clock) is equal. -/
theorem replay_deterministic_up_to_timestamps (clock1 clock2 : Nat → Int)
    (cmds : List Command) :
    eraseTime (replay clock1 cmds) = eraseTime (replay clock2 cmds) := by
  unfold replay
  rw [replayFrom_eraseTime, replayFrom_eraseTime]

/-- Claim C5 counterexample: after `add_show`, `reserve` seat 1 (reserved
becomes true), a committed `release` for the same seat makes `reserved`
false again — `reserved` does not remain true for the rest of the log's
history. -/
theorem release_clears_reserved :
    seatIsReserved smC5b "s" 1 = true ∧ seatIsReserved smC5c "s" 1 = false := by
  decide

/-- Claim C5 (amended): once a seat's record has `reserved = true`, every
further command except a `release` naming that same show and seat leaves
`reserved = true`. -/
theorem reserved_persists_without_release (now : Int) (sm : Shows) (cmd : Command)
    (sid : String) (seat : Int)
    (hres : seatIsReserved sm sid seat = true)
    (hnorel : ∀ s i, cmd = Command.release s i → ¬(s = sid ∧ i = seat)) :
    seatIsReserved (StateMachine.apply now sm cmd) sid seat = true := by
  cases cmd with
  | unknown => exact hres
  | reserve s i u b =>
      simp only [StateMachine.apply, StateMachine.reserve_seat]
      split
      · exact hres
      · rename_i sh hsh
        split
        · exact hres
        · split
          · exact hres
          · rename_i hrange hr
            by_cases hs : s = sid
            · subst hs
              by_cases hi : i = seat
              · subst hi
                simp only [seatIsReserved, seatRecordOf, hsh] at hres
                exact absurd hres hr
              · simp only [seatIsReserved, seatRecordOf, hsh] at hres
                simp only [seatIsReserved, seatRecordOf, alistGet_set_self]
                rw [alistGet_set_ne _ _ _ _ (Ne.symm hi)]
                exact hres
            · simp only [seatIsReserved, seatRecordOf] at hres ⊢
              rw [alistGet_set_ne _ _ _ _ (Ne.symm hs)]
              exact hres
  | add_show s t p =>
      simp only [StateMachine.apply, StateMachine.add_show]
      split
      · split
        · exact hres
        · split
          · rename_i hsh
            by_cases hs : s = sid
            · subst hs
              simp [seatIsReserved, seatRecordOf, hsh, recordReserved] at hres
            · simp only [seatIsReserved, seatRecordOf] at hres ⊢
              rw [alistGet_set_ne _ _ _ _ (Ne.symm hs)]
              exact hres
          · rename_i sh hsh
            by_cases hs : s = sid
            · subst hs
              simp only [seatIsReserved, seatRecordOf, hsh] at hres
              simp only [seatIsReserved, seatRecordOf, alistGet_set_self]
              exact hres
            · simp only [seatIsReserved, seatRecordOf] at hres ⊢
              rw [alistGet_set_ne _ _ _ _ (Ne.symm hs)]
              exact hres
      · exact hres
  | release s i =>
      have hne : ¬(s = sid ∧ i = seat) := hnorel s i rfl
      simp only [StateMachine.apply, StateMachine.release_seat]
      split
      · exact hres
      · rename_i sh hsh
        split
        · exact hres
        · rename_i r hr
          by_cases hs : s = sid
          · subst hs
            have hi : i ≠ seat := fun h => hne ⟨rfl, h⟩
            simp only [seatIsReserved, seatRecordOf, hsh] at hres
            simp only [seatIsReserved, seatRecordOf, alistGet_set_self]
            rw [alistGet_set_ne _ _ _ _ (Ne.symm hi)]
            exact hres
          · simp only [seatIsReserved, seatRecordOf] at hres ⊢
            rw [alistGet_set_ne _ _ _ _ (Ne.symm hs)]
            exact hres

/-- Witness for the amended C5: a reserve of another seat keeps seat 1
reserved. -/
theorem reserved_persists_without_release_witness :
    seatIsReserved smC5b "s" 1 = true ∧
    seatIsReserved (StateMachine.apply 3 smC5b (.reserve "s" 2 none none)) "s" 1 = true :=
  ⟨by decide,
    reserved_persists_without_release 3 smC5b (.reserve "s" 2 none none) "s" 1
      (by decide) (fun s i h => nomatch h)⟩

/-- Claim C6: a `BookSeat` call on a node that is not the leader, with a
valid session, an existing show and an accepted card, returns the
NotLeader outcome — but only after `ProcessPayment` has been invoked (the
second component is `true`): the code charges the card before the leader
check inside `book_seat` runs. -/
theorem bookSeat_nonleader_still_charges :
    BookingService.BookSeat envC6 smC6 "s1" 1 "4242" = (BookOutcome.not_leader, true) := by
  decide

/-- Claim C7 counterexample: the reachable follower `stC7` (commit index 2
after accepting entries 1-2 with leader_commit 2 and applying them)
handles the stale retransmission `reqC7b` (entry 1 only, leader_commit 3)
and its commit index drops from 2 to 1 — the commit index is not
monotonically non-decreasing for every well-typed request. -/
theorem commit_index_can_decrease :
    stC7.commit_index = 2 ∧ stC7'.commit_index = 1 := by
  decide

/-- Claim C7 (amended): the commit index never decreases under
`_check_for_commit`, nor under `handle_append_entries` for any request
shaped as the leader's sender shapes it — a heartbeat (no entries), or
entries at consecutive indices from `prev_log_index` with
`leader_commit ≤ prev_log_index + len(entries)` — given the node
invariants that the commit index is at most the last log index and the
log's entries are keyed by their own index. -/
theorem commit_index_monotone_for_leader_requests (st : RaftNode) (req : AppendEntriesRequest)
    (hwk : st.log.wellKeyed = true)
    (hci : st.commit_index ≤ st.log.last_index)
    (hbound : req.entries = [] ∨
      (consecutiveFrom req.prev_log_index req.entries = true ∧
        req.leader_commit ≤ req.prev_log_index + req.entries.length)) :
    st.commit_index ≤ (RaftNode.handle_append_entries st req).1.commit_index ∧
    st.commit_index ≤ (RaftNode.check_for_commit st).commit_index := by
  refine ⟨?_, check_for_commit_mono st⟩
  unfold RaftNode.handle_append_entries
  split
  · exact Nat.le_refl _
  · dsimp only
    by_cases hgt : st.current_term < req.term
    · rw [if_pos hgt]
      unfold RaftNode.transition_to_follower
      rw [if_pos hgt]
      exact accept_commit_mono
        { current_term := req.term, voted_for := none, log := st.log,
          commit_index := st.commit_index, last_applied := st.last_applied,
          role := .follower, leader_id := some req.leader_id,
          match_index := st.match_index, majority := st.majority,
          state_machine := st.state_machine } req hwk hci hbound
    · rw [if_neg hgt]
      exact accept_commit_mono
        { st with leader_id := some req.leader_id, role := .follower } req hwk hci hbound

/-- Witness for the amended C7: the fresh follower accepting `reqC7a`. -/
theorem commit_index_monotone_for_leader_requests_witness :
    initNodeC7.log.wellKeyed = true ∧
    initNodeC7.commit_index ≤
      (RaftNode.handle_append_entries initNodeC7 reqC7a).1.commit_index :=
  ⟨by decide,
    (commit_index_monotone_for_leader_requests initNodeC7 reqC7a (by decide) (by decide)
      (by decide)).1⟩

/-- Claim C8 counterexample: after the stale request of the C7 trace the
same node has `last_applied = 2` but `commit_index = 1`, so
`apply_index ≤ commit_index` does not hold at every point of execution. -/
theorem last_applied_can_exceed_commit :
    stC7'.last_applied = 2 ∧ stC7'.commit_index = 1 := by
  decide

/-- Claim C8 (amended): whenever `last_applied ≤ commit_index` on entry,
the apply loop raises `last_applied` exactly to `commit_index` and applies
the entries at indices `last_applied + 1 .. commit_index` strictly in
increasing index order (`applyRange`); when `last_applied ≥ commit_index`
it changes nothing.  The invariant `last_applied ≤ commit_index` is thus
preserved by the loop itself and by every operation that does not lower
the commit index below `last_applied` (the stale-append case of C7 is the
one operation that can). -/
theorem apply_loop_reaches_commit_in_order (clock : Nat → Int) (st : RaftNode) :
    (st.last_applied ≤ st.commit_index →
      (RaftNode.apply_committed clock st).last_applied = st.commit_index ∧
      (RaftNode.apply_committed clock st).state_machine =
        applyRange st.log clock st.last_applied st.commit_index st.state_machine) ∧
    (st.commit_index ≤ st.last_applied → RaftNode.apply_committed clock st = st) := by
  constructor
  · intro hle
    unfold RaftNode.apply_committed
    rw [applyLoopAux_spec st.log clock _ _ _ _ rfl hle]
    exact ⟨rfl, rfl⟩
  · intro hge
    unfold RaftNode.apply_committed
    have h0 : st.commit_index - st.last_applied = 0 := by omega
    rw [h0]
    rfl

/-- Witness for the amended C8: the follower that just accepted `reqC7a`
(commit 2, nothing applied) applies up to index 2. -/
theorem apply_loop_reaches_commit_in_order_witness :
    (RaftNode.handle_append_entries initNodeC7 reqC7a).1.last_applied ≤
      (RaftNode.handle_append_entries initNodeC7 reqC7a).1.commit_index ∧
    (RaftNode.apply_committed (fun _ => 0)
        (RaftNode.handle_append_entries initNodeC7 reqC7a).1).last_applied =
      (RaftNode.handle_append_entries initNodeC7 reqC7a).1.commit_index :=
  ⟨by decide,
    ((apply_loop_reaches_commit_in_order (fun _ => 0)
      (RaftNode.handle_append_entries initNodeC7 reqC7a).1).1 (by decide)).1⟩

/-- Claim C9 counterexample: appending an entry with the non-dense index 5
to the empty log raises no error — the entry is stored and `last_index`
becomes 5, so `append` does not fail with `InconsistentAppend`. -/
theorem append_nondense_succeeds :
    ((Log.empty.append ⟨5, 1, .unknown⟩).get 5 = some ⟨5, 1, .unknown⟩) ∧
    ((Log.empty.append ⟨5, 1, .unknown⟩).last_index = 5) := by
  decide

/-- Claim C9 (amended): `Log.append` is total and never fails: for every
log and entry — dense or not — it stores the entry under its index,
raises `last_index` to the maximum of the old value and the entry's
index, and leaves every other index unchanged.  No `InconsistentAppend`
error exists in the code. -/
theorem append_total_spec (l : Log) (e : LogEntry) :
    ((l.append e).get e.index = some e) ∧
    ((l.append e).last_index = max l.last_index e.index) ∧
    (∀ i, i ≠ e.index → (l.append e).get i = l.get i) := by
  refine ⟨?_, rfl, ?_⟩
  · exact alistGet_set_self l.entries e.index e
  · intro i hi
    exact alistGet_set_ne l.entries e.index i e hi

/-- Witness for the amended C9: index 3 is untouched by an append at 5. -/
theorem append_total_spec_witness :
    (3 : Nat) ≠ 5 ∧ (Log.empty.append ⟨5, 1, .unknown⟩).get 3 = Log.empty.get 3 :=
  ⟨by decide, (append_total_spec Log.empty ⟨5, 1, .unknown⟩).2.2 3 (by decide)⟩

/-- Claim C10: querying a seat of a show absent from the catalog, or a
seat id outside `[1, total_seats]` of an existing show, yields a record
with `exists = false` and `reserved = true`, and the QuerySeat RPC then
reports the seat as not available (`available = false`, no seat payload) —
never as bookable. -/
theorem query_missing_or_out_of_range_unavailable (sm : Shows) (sid : String) (seat : Int)
    (h : alistGet sm sid = none ∨
      ∃ sh, alistGet sm sid = some sh ∧ (seat ≤ 0 ∨ sh.total_seats < seat)) :
    (StateMachine.query sm sid seat).seat.exists_ = false ∧
    (StateMachine.query sm sid seat).seat.reserved = true ∧
    BookingService.QuerySeat sm sid seat = (false, none) := by
  rcases h with h | ⟨sh, hsh, hrange⟩
  · have hq : StateMachine.query sm sid seat = ⟨none, none, ⟨true, none, false, none, none⟩⟩ := by
      unfold StateMachine.query
      rw [h]
    refine ⟨by rw [hq], by rw [hq], ?_⟩
    unfold BookingService.QuerySeat SeatManager.query_seat
    dsimp only
    rw [hq]
    rfl
  · have hq : StateMachine.query sm sid seat =
        ⟨some sid, some sh.price_cents, ⟨true, none, false, none, none⟩⟩ := by
      unfold StateMachine.query StateMachine.get_seat_record
      rw [hsh]
      dsimp only
      rw [if_pos hrange]
    refine ⟨by rw [hq], by rw [hq], ?_⟩
    unfold BookingService.QuerySeat SeatManager.query_seat
    dsimp only
    rw [hq]
    rfl

/-- Witness for C10: the empty catalog has no show "s". -/
theorem query_missing_or_out_of_range_unavailable_witness :
    alistGet ([] : Shows) "s" = none ∧
    BookingService.QuerySeat ([] : Shows) "s" 1 = (false, none) :=
  ⟨rfl, (query_missing_or_out_of_range_unavailable [] "s" 1 (Or.inl rfl)).2.2⟩
